import Mathlib

/-!
Verification of the Church-numeral core (`src/church.rs`), the Peano-numeral
module (`src/peano.rs`) and the total/partial overlay map (`src/map.rs`) of the
`rust_coq` repository, as a shallow embedding in Lean 4.

`Rc<dyn Fn(A) -> B>` is embedded as the plain function type `A → B` (the `Rc`
wrapper only provides shared ownership, which is irrelevant to the functional
semantics). The one effectful function, `to_usize`, keeps its `RefCell`
counter by the standard state-passing translation: the counter travels as the
second component of a pair, so the numeral is instantiated at element type
`T × Nat` instead of `T`.
-/

/-- Embeds `pub type Church<T> = Rc<dyn Fn(Rc<dyn Fn(T) -> T>) -> Rc<dyn Fn(T) -> T>>`. -/
def Church (T : Type) : Type := (T → T) → (T → T)

/-- Embeds `zero<T>()`: `Rc::new(move |_f| Rc::new(move |x| x))`. -/
def zero {T : Type} : Church T := fun _f => fun x => x

/-- Embeds `one<T>()`: `Rc::new(move |f| Rc::new(move |x| f(x)))`. -/
def one {T : Type} : Church T := fun f => fun x => f x

/-- Embeds `two<T>()`: `Rc::new(move |f| Rc::new(move |x| f(f(x))))`. -/
def two {T : Type} : Church T := fun f => fun x => f (f x)

/-- Embeds `three<T>()`: `Rc::new(move |f| Rc::new(move |x| f(f(f(x)))))`. -/
def three {T : Type} : Church T := fun f => fun x => f (f (f x))

/-- Embeds `succ<T>(n)`: bind `f_n = n(f)`, return `move |x| f(f_n(x))`. -/
def succ {T : Type} (n : Church T) : Church T :=
  fun f =>
    let f_n := n f
    fun x => f (f_n x)

/-- Embeds `from_usize<T>(n)`: start from `zero()` and apply `succ` `n` times
(the source's `for _ in 0..n { result = succ(result); }` loop). -/
def from_usize {T : Type} : Nat → Church T
  | 0 => zero
  | n + 1 => succ (from_usize n)

/-- Embeds `to_usize<T: Default>(n)` with the seed value made explicit.
The source builds an instrumented `f` that increments a `RefCell` counter and
returns its argument unchanged; state-passing turns that into
`fun x => (x.1, x.2 + 1)` on `T × Nat`.  It then computes `result_f = n(f)`,
applies `result_f` to a seed of type `T` (paired with the counter at `0`) and
returns the final counter. -/
def to_usize_seed {T : Type} (n : Church (T × Nat)) (seed : T) : Nat :=
  let f : T × Nat → T × Nat := fun x => (x.1, x.2 + 1)
  let result_f := n f
  (result_f (seed, 0)).2

/-- Embeds `to_usize<T: Default>(n)`: the source seeds the evaluation with
`Default::default()`, embedded as the `Inhabited.default` of `T`. -/
def to_usize {T : Type} [Inhabited T] (n : Church (T × Nat)) : Nat :=
  to_usize_seed n default

/-- Embeds `add<T>(n, m)`: bind `f_n = n(f)` and `f_m = m(f)`, return
`move |x| f_m(f_n(x))`. -/
def add {T : Type} (n m : Church T) : Church T :=
  fun f =>
    let f_n := n f
    let f_m := m f
    fun x => f_m (f_n x)

/-- Embeds `mult<T>(n, m)`: bind `f_n = n(f)` and `f_m_n = m(f_n)`, return
`move |x| f_m_n(x)`. -/
def mult {T : Type} (n m : Church T) : Church T :=
  fun f =>
    let f_n := n f
    let f_m_n := m f_n
    fun x => f_m_n x

/-- Embeds `exp<T>(n: Church<T>, m: Church<Rc<dyn Fn(T) -> T>>)`: bind
`f_n_to_m = m(n)(f)`, return `move |x| f_n_to_m(x)`. -/
def exp {T : Type} (n : Church T) (m : Church (T → T)) : Church T :=
  fun f =>
    let f_n_to_m := m n f
    fun x => f_n_to_m x

/-- A value of the `Church<T>` type denotes the numeral `k` when, for every
endofunction `f` and every input `x`, it applies `f` to `x` exactly `k` times.
This is the behavioral contract of `Numeral<T>` in the data model. -/
def IsChurch {T : Type} (c : Church T) (k : Nat) : Prop :=
  ∀ (f : T → T) (x : T), c f x = f^[k] x

lemma isChurch_zero {T : Type} : IsChurch (zero : Church T) 0 := by
  intro f x
  rfl

lemma isChurch_one {T : Type} : IsChurch (one : Church T) 1 := by
  intro f x
  rfl

lemma isChurch_two {T : Type} : IsChurch (two : Church T) 2 := by
  intro f x
  rfl

lemma isChurch_three {T : Type} : IsChurch (three : Church T) 3 := by
  intro f x
  rfl

lemma isChurch_succ {T : Type} {n : Church T} {a : Nat} (hn : IsChurch n a) :
    IsChurch (succ n) (a + 1) := by
  intro f x
  show f (n f x) = f^[a + 1] x
  rw [hn f x, Function.iterate_succ_apply']

lemma isChurch_from_usize {T : Type} (k : Nat) :
    IsChurch (from_usize k : Church T) k := by
  induction k with
  | zero => exact isChurch_zero
  | succ j ih => exact isChurch_succ ih

lemma isChurch_add {T : Type} {n m : Church T} {a b : Nat}
    (hn : IsChurch n a) (hm : IsChurch m b) : IsChurch (add n m) (a + b) := by
  intro f x
  show m f (n f x) = f^[a + b] x
  rw [hn f x, hm f, Nat.add_comm a b, Function.iterate_add_apply]

lemma isChurch_mult {T : Type} {n m : Church T} {a b : Nat}
    (hn : IsChurch n a) (hm : IsChurch m b) : IsChurch (mult n m) (a * b) := by
  intro f x
  show m (n f) x = f^[a * b] x
  have hnf : n f = f^[a] := funext (hn f)
  rw [hnf, hm, Function.iterate_mul]

lemma church_pow_aux {T : Type} {n : Church T} {a : Nat} (hn : IsChurch n a)
    (b : Nat) (f : T → T) : n^[b] f = f^[a ^ b] := by
  induction b with
  | zero =>
    simp [Function.iterate_one]
  | succ j ih =>
    rw [Function.iterate_succ_apply', ih]
    have : n f^[a ^ j] = (f^[a ^ j])^[a] := funext (hn (f^[a ^ j]))
    rw [this, ← Function.iterate_mul, pow_succ]

lemma isChurch_exp {T : Type} {n : Church T} {m : Church (T → T)} {a b : Nat}
    (hn : IsChurch n a) (hm : IsChurch m b) : IsChurch (exp n m) (a ^ b) := by
  intro f x
  show m n f x = f^[a ^ b] x
  rw [hm n f, church_pow_aux hn b f]

/-- The instrumented endofunction of `to_usize`, iterated `k` times, leaves
the value component unchanged and adds `k` to the counter. -/
lemma count_iterate {T : Type} (k : Nat) (t : T) (c : Nat) :
    (fun x : T × Nat => (x.1, x.2 + 1))^[k] (t, c) = (t, c + k) := by
  induction k generalizing c with
  | zero => rfl
  | succ j ih =>
    rw [Function.iterate_succ_apply, ih]
    simp [Nat.add_assoc, Nat.add_comm 1 j]

lemma to_usize_seed_isChurch {T : Type} {n : Church (T × Nat)} {a : Nat}
    (hn : IsChurch n a) (seed : T) : to_usize_seed n seed = a := by
  show (n (fun x : T × Nat => (x.1, x.2 + 1)) (seed, 0)).2 = a
  rw [hn (fun x : T × Nat => (x.1, x.2 + 1)) (seed, 0), count_iterate]
  exact Nat.zero_add a

lemma to_usize_isChurch {T : Type} [Inhabited T] {n : Church (T × Nat)} {a : Nat}
    (hn : IsChurch n a) : to_usize n = a :=
  to_usize_seed_isChurch hn default

/-- Embeds `enum Peano { O, S(Rc<Peano>) }` from `src/peano.rs`; the `Rc`
indirection is dropped since only the recursive structure matters. -/
inductive Peano where
  | O : Peano
  | S : Peano → Peano
deriving DecidableEq

/-- Embeds `Peano::pred`: `O => O`, `S(p) => p`. -/
def Peano.pred : Peano → Peano
  | .O => .O
  | .S p => p

/-- Embeds `Peano::succ`: `Peano::S(Rc::new(self))`. -/
def Peano.succ (p : Peano) : Peano := .S p

/-- Embeds `impl From<usize> for Peano`: `0 => O`, `n => S((n-1).into())`. -/
def Peano.fromUsize : Nat → Peano
  | 0 => .O
  | n + 1 => .S (Peano.fromUsize n)

/-- Embeds `impl Into<usize> for Peano`: `O => 0`, `S(p) => 1 + p.into()`. -/
def Peano.intoUsize : Peano → Nat
  | .O => 0
  | .S p => 1 + Peano.intoUsize p

/-- Embeds `impl Add for Peano`: `(O,O) => O`, `(O,rhs) => rhs`,
`(lhs,O) => lhs`, `(lhs,rhs) => lhs.succ() + rhs.pred()`.  In the last arm
`rhs` is non-zero (the earlier arms catch `O`), so `rhs.pred()` strips one
`S`; the recursion is structural on the right operand. -/
def Peano.add : Peano → Peano → Peano
  | .O, .O => .O
  | .O, rhs => rhs
  | lhs, .O => lhs
  | lhs, .S r => Peano.add lhs.succ r

/-- Embeds `impl Sub for Peano`: `(O,_) => O`, `(lhs,O) => lhs`,
`(S(l),S(r)) => l - r`. -/
def Peano.sub : Peano → Peano → Peano
  | .O, _ => .O
  | lhs, .O => lhs
  | .S l, .S r => Peano.sub l r

/-- Embeds `impl Mul for Peano`: `O => O`, `S(n) => n * rhs + rhs`. -/
def Peano.mul : Peano → Peano → Peano
  | .O, _ => .O
  | .S n, rhs => Peano.add (Peano.mul n rhs) rhs

lemma Peano.intoUsize_fromUsize (a : Nat) : (Peano.fromUsize a).intoUsize = a := by
  induction a with
  | zero => rfl
  | succ j ih => simp [Peano.fromUsize, Peano.intoUsize, ih, Nat.add_comm]

lemma Peano.sub_intoUsize (p q : Peano) :
    (p.sub q).intoUsize = p.intoUsize - q.intoUsize := by
  induction p generalizing q with
  | O => simp [Peano.sub, Peano.intoUsize]
  | S l ih =>
    cases q with
    | O => simp [Peano.sub, Peano.intoUsize]
    | S r =>
      show (l.sub r).intoUsize = (1 + l.intoUsize) - (1 + r.intoUsize)
      rw [ih r]
      omega

lemma Peano.add_intoUsize (p q : Peano) :
    (p.add q).intoUsize = p.intoUsize + q.intoUsize := by
  induction q generalizing p with
  | O =>
    cases p with
    | O => rfl
    | S l => rfl
  | S r ih =>
    cases p with
    | O =>
      show (Peano.S r).intoUsize = Peano.O.intoUsize + (Peano.S r).intoUsize
      show 1 + r.intoUsize = 0 + (1 + r.intoUsize)
      omega
    | S l =>
      show (Peano.add (Peano.succ (Peano.S l)) r).intoUsize
        = (1 + l.intoUsize) + (1 + r.intoUsize)
      rw [ih (Peano.succ (Peano.S l))]
      show (1 + (1 + l.intoUsize)) + r.intoUsize = (1 + l.intoUsize) + (1 + r.intoUsize)
      omega

/-- Embeds `pub type TotalMap<K, V> = Rc<dyn Fn(K) -> V>` from `src/map.rs`. -/
def TotalMap (K V : Type) : Type := K → V

/-- Embeds `tm_empty`: `Rc::new(move |_| default_v.clone())`. -/
def tm_empty {K V : Type} (default_v : V) : TotalMap K V :=
  fun _ => default_v

/-- Embeds `tm_update`: `Rc::new(move |k_1| if k_1 == k { v.clone() } else { m(k_1) })`.
The `K: PartialEq` bound becomes `DecidableEq K`. -/
def tm_update {K V : Type} [DecidableEq K] (m : TotalMap K V) (k : K) (v : V) :
    TotalMap K V :=
  fun k_1 => if k_1 = k then v else m k_1

/-- The values of the `Church<T>` type that the library can actually produce:
closure of the constructors and arithmetic operators of `src/church.rs`.  The
`exp` case takes its exponent at element type `T → T`, exactly as
`exp<T>(n: Church<T>, m: Church<Rc<dyn Fn(T) -> T>>)` does. -/
inductive Built : (T : Type) → Church T → Prop where
  | czero (T : Type) : Built T zero
  | cone (T : Type) : Built T one
  | ctwo (T : Type) : Built T two
  | cthree (T : Type) : Built T three
  | csucc {T : Type} {n : Church T} : Built T n → Built T (succ n)
  | cfrom (T : Type) (k : Nat) : Built T (from_usize k)
  | cadd {T : Type} {n m : Church T} : Built T n → Built T m → Built T (add n m)
  | cmult {T : Type} {n m : Church T} : Built T n → Built T m → Built T (mult n m)
  | cexp {T : Type} {n : Church T} {m : Church (T → T)} :
      Built T n → Built (T → T) m → Built T (exp n m)

lemma built_isChurch {T : Type} {n : Church T} (h : Built T n) :
    ∃ k, IsChurch n k := by
  induction h with
  | czero T => exact ⟨0, isChurch_zero⟩
  | cone T => exact ⟨1, isChurch_one⟩
  | ctwo T => exact ⟨2, isChurch_two⟩
  | cthree T => exact ⟨3, isChurch_three⟩
  | csucc h ih =>
    obtain ⟨k, hk⟩ := ih
    exact ⟨k + 1, isChurch_succ hk⟩
  | cfrom T k => exact ⟨k, isChurch_from_usize k⟩
  | cadd h1 h2 ih1 ih2 =>
    obtain ⟨a, ha⟩ := ih1
    obtain ⟨b, hb⟩ := ih2
    exact ⟨a + b, isChurch_add ha hb⟩
  | cmult h1 h2 ih1 ih2 =>
    obtain ⟨a, ha⟩ := ih1
    obtain ⟨b, hb⟩ := ih2
    exact ⟨a * b, isChurch_mult ha hb⟩
  | cexp h1 h2 ih1 ih2 =>
    obtain ⟨a, ha⟩ := ih1
    obtain ⟨b, hb⟩ := ih2
    exact ⟨a ^ b, isChurch_exp ha hb⟩

/-- Claim C1: for every non-negative machine integer `k`, extracting the
numeral built from `k` returns `k`: `to_usize (from_usize k) = k`
(`from_usize` applies `succ` to `zero` exactly `k` times, and `to_usize`
counts exactly `k` invocations of the instrumented function). -/
theorem roundtrip_to_usize_from_usize (T : Type) [Inhabited T] (k : Nat) :
    to_usize (from_usize k : Church (T × Nat)) = k :=
  to_usize_isChurch (isChurch_from_usize k)

theorem roundtrip_to_usize_from_usize_witness :
    to_usize (from_usize 4 : Church (Unit × Nat)) = 4 :=
  roundtrip_to_usize_from_usize Unit 4

/-- Claim C2: for every numeral `n` over `T` and every numeral `m` over
endofunctions of `T`, `exp n m` is the numeral that, given any endofunction
`f`, yields `f` composed with itself `n ^ m` times; in particular
`exp two three` decodes to `8` and `exp (from_usize 3) (from_usize 5)`
decodes to `243` under `to_usize`. -/
theorem exp_spec :
    (∀ (T : Type) (a b : Nat) (n : Church T) (m : Church (T → T)),
      IsChurch n a → IsChurch m b →
      ∀ (f : T → T) (x : T), exp n m f x = f^[a ^ b] x) ∧
    (∀ (T : Type) [Inhabited T] (a b : Nat)
      (n : Church (T × Nat)) (m : Church ((T × Nat) → T × Nat)),
      IsChurch n a → IsChurch m b → to_usize (exp n m) = a ^ b) ∧
    to_usize (exp (two : Church (Unit × Nat)) three) = 8 ∧
    to_usize (exp (from_usize 3 : Church (Unit × Nat)) (from_usize 5)) = 243 := by
  refine ⟨?_, ?_, ?_, ?_⟩
  · intro T a b n m hn hm f x
    exact isChurch_exp hn hm f x
  · intro T _ a b n m hn hm
    exact to_usize_isChurch (isChurch_exp hn hm)
  · exact (to_usize_isChurch (isChurch_exp isChurch_two isChurch_three)).trans (by norm_num)
  · exact (to_usize_isChurch
      (isChurch_exp (isChurch_from_usize 3) (isChurch_from_usize 5))).trans (by norm_num)

theorem exp_spec_witness :
    to_usize (exp (two : Church (Unit × Nat)) three) = 2 ^ 3 :=
  exp_spec.2.1 Unit 2 3 two three (fun f x => rfl) (fun f x => rfl)

/-- Claim C3: for every pair of numerals `n` and `m` and every endofunction
`f`, `add n m` applied to `f` returns the function `x ↦ f^m (f^n x)` (n
applications of `f` followed by m applications), so that
`to_usize (add n m) = to_usize n + to_usize m`. -/
theorem add_spec :
    (∀ (T : Type) (a b : Nat) (n m : Church T), IsChurch n a → IsChurch m b →
      ∀ (f : T → T) (x : T), add n m f x = f^[b] (f^[a] x)) ∧
    (∀ (T : Type) [Inhabited T] (n m : Church (T × Nat)) (a b : Nat),
      IsChurch n a → IsChurch m b →
      to_usize (add n m) = to_usize n + to_usize m) := by
  constructor
  · intro T a b n m hn hm f x
    show m f (n f x) = f^[b] (f^[a] x)
    rw [hn f x, hm f]
  · intro T _ n m a b hn hm
    rw [to_usize_isChurch (isChurch_add hn hm), to_usize_isChurch hn, to_usize_isChurch hm]

theorem add_spec_witness :
    add (one : Church Nat) two Nat.succ 0 = Nat.succ^[2] (Nat.succ^[1] 0) ∧
    to_usize (add (one : Church (Unit × Nat)) two)
      = to_usize (one : Church (Unit × Nat)) + to_usize (two : Church (Unit × Nat)) :=
  ⟨add_spec.1 Nat 1 2 one two (fun f x => rfl) (fun f x => rfl) Nat.succ 0,
   add_spec.2 Unit one two 1 2 (fun f x => rfl) (fun f x => rfl)⟩

/-- Claim C4: for every pair of numerals `n` and `m` and every endofunction
`f`, `mult n m` applied to `f` equals `f` composed with itself `n * m` times
(it applies `m` to `g = f^n`, yielding `g^m = f^(n*m)`), so
`to_usize (mult n m) = to_usize n * to_usize m`. -/
theorem mult_spec :
    (∀ (T : Type) (a b : Nat) (n m : Church T), IsChurch n a → IsChurch m b →
      ∀ (f : T → T) (x : T), mult n m f x = f^[a * b] x) ∧
    (∀ (T : Type) [Inhabited T] (n m : Church (T × Nat)) (a b : Nat),
      IsChurch n a → IsChurch m b →
      to_usize (mult n m) = to_usize n * to_usize m) := by
  constructor
  · intro T a b n m hn hm f x
    exact isChurch_mult hn hm f x
  · intro T _ n m a b hn hm
    rw [to_usize_isChurch (isChurch_mult hn hm), to_usize_isChurch hn, to_usize_isChurch hm]

theorem mult_spec_witness :
    mult (two : Church Nat) three Nat.succ 0 = Nat.succ^[2 * 3] 0 ∧
    to_usize (mult (two : Church (Unit × Nat)) three)
      = to_usize (two : Church (Unit × Nat)) * to_usize (three : Church (Unit × Nat)) :=
  ⟨mult_spec.1 Nat 2 3 two three (fun f x => rfl) (fun f x => rfl) Nat.succ 0,
   mult_spec.2 Unit two three 2 3 (fun f x => rfl) (fun f x => rfl)⟩

/-- Claim C5: addition is commutative under extraction: for every pair of
numerals `n` and `m`, `to_usize (add n m) = to_usize (add m n)`, even though
the construction of `add` is not symmetric in evaluation order. -/
theorem add_comm_spec (T : Type) [Inhabited T] (a b : Nat) (n m : Church (T × Nat))
    (hn : IsChurch n a) (hm : IsChurch m b) :
    to_usize (add n m) = to_usize (add m n) := by
  rw [to_usize_isChurch (isChurch_add hn hm), to_usize_isChurch (isChurch_add hm hn),
    Nat.add_comm]

theorem add_comm_spec_witness :
    to_usize (add (one : Church (Unit × Nat)) two)
      = to_usize (add (two : Church (Unit × Nat)) one) :=
  add_comm_spec Unit 1 2 one two (fun f x => rfl) (fun f x => rfl)

/-- Claim C6: every numeral produced by the constructors and arithmetic
operators (`zero`, `one`, `two`, `three`, `succ`, `from_usize`, `add`,
`mult`, `exp`), when applied to the identity function on `T`, returns a
function extensionally equal to the identity function, for every element
type `T`. -/
theorem built_id_spec (T : Type) (n : Church T) (h : Built T n) (x : T) :
    n (fun y => y) x = x := by
  obtain ⟨k, hk⟩ := built_isChurch h
  rw [hk (fun y => y) x]
  show (id : T → T)^[k] x = x
  rw [Function.iterate_id]
  rfl

theorem built_id_spec_witness :
    exp (two : Church Nat) three (fun y => y) 7 = 7 :=
  built_id_spec Nat (exp two three)
    (Built.cexp (Built.ctwo Nat) (Built.cthree (Nat → Nat))) 7

/-- Claim C7: the integer returned by the extractor does not depend on which
inhabitant of `T` seeds the final evaluation: for any two seed values, the
extraction yields the same count, and for the `zero` numeral the count is
`0`. -/
theorem to_usize_seed_spec (T : Type) (a : Nat) (n : Church (T × Nat))
    (hn : IsChurch n a) :
    (∀ t1 t2 : T, to_usize_seed n t1 = to_usize_seed n t2) ∧
    (∀ t : T, to_usize_seed (zero : Church (T × Nat)) t = 0) := by
  constructor
  · intro t1 t2
    rw [to_usize_seed_isChurch hn t1, to_usize_seed_isChurch hn t2]
  · intro t
    rfl

theorem to_usize_seed_spec_witness :
    to_usize_seed (two : Church (Bool × Nat)) true
      = to_usize_seed (two : Church (Bool × Nat)) false ∧
    to_usize_seed (zero : Church (Bool × Nat)) true = 0 :=
  ⟨(to_usize_seed_spec Bool 2 two (fun f x => rfl)).1 true false,
   (to_usize_seed_spec Bool 2 two (fun f x => rfl)).2 true⟩

/-- Claim C8: Peano subtraction is truncated at zero: for all naturals `a`
and `b`, converting `Peano::from(a) - Peano::from(b)` back to a machine
integer yields `a - b` when `a ≥ b` and `0` when `a < b`; in particular `O`
minus anything is `O`. -/
theorem peano_sub_spec (a b : Nat) :
    (b ≤ a → ((Peano.fromUsize a).sub (Peano.fromUsize b)).intoUsize = a - b) ∧
    (a < b → ((Peano.fromUsize a).sub (Peano.fromUsize b)).intoUsize = 0) ∧
    (∀ p : Peano, Peano.sub Peano.O p = Peano.O) := by
  have key : ((Peano.fromUsize a).sub (Peano.fromUsize b)).intoUsize = a - b := by
    rw [Peano.sub_intoUsize, Peano.intoUsize_fromUsize, Peano.intoUsize_fromUsize]
  refine ⟨fun _ => key, fun hlt => ?_, fun p => ?_⟩
  · rw [key]
    omega
  · cases p <;> rfl

theorem peano_sub_spec_witness :
    ((Peano.fromUsize 5).sub (Peano.fromUsize 3)).intoUsize = 5 - 3 ∧
    ((Peano.fromUsize 2).sub (Peano.fromUsize 7)).intoUsize = 0 :=
  ⟨(peano_sub_spec 5 3).1 (by decide), (peano_sub_spec 2 7).2.1 (by decide)⟩

/-- Claim C9: total-map update is point-wise override with last-write-wins:
`tm_update m k v` returns `v` at `k` and `m k1` at any `k1 ≠ k`, a later
update of the same key shadows an earlier one, and `tm_empty d` returns `d`
at every key. -/
theorem tm_spec (K V : Type) [DecidableEq K] (m : TotalMap K V) (k k1 : K)
    (v d : V) :
    tm_update m k v k = v ∧
    (k1 ≠ k → tm_update m k v k1 = m k1) ∧
    (∀ v1 v2 : V, tm_update (tm_update m k v1) k v2 k = v2) ∧
    tm_empty (K := K) d k = d := by
  refine ⟨?_, ?_, ?_, rfl⟩
  · simp [tm_update]
  · intro hne
    simp [tm_update, hne]
  · intro v1 v2
    simp [tm_update]

theorem tm_spec_witness :
    tm_update (tm_empty 0) 1 5 1 = 5 ∧
    tm_update (tm_empty 0) 1 5 2 = tm_empty (K := Nat) 0 2 ∧
    tm_update (tm_update (tm_empty 0) 1 7) 1 9 1 = 9 ∧
    tm_empty (K := Nat) (0 : Nat) 1 = 0 := by
  have h := tm_spec Nat Nat (tm_empty 0) 1 2 5 0
  exact ⟨h.1, h.2.1 (by decide), h.2.2.1 7 9, h.2.2.2⟩

/-- Claim C10: Peano addition terminates on every pair of inputs — the
recursion `(lhs, rhs) => lhs.succ() + rhs.pred()` strictly decreases the
right operand (so `Peano.add` is accepted as a total, structurally recursive
function) — and the sum's integer value equals the sum of the operands'
integer values. -/
theorem peano_add_spec :
    (∀ rhs : Peano, rhs ≠ Peano.O → (Peano.pred rhs).intoUsize < rhs.intoUsize) ∧
    (∀ p q : Peano, (p.add q).intoUsize = p.intoUsize + q.intoUsize) := by
  constructor
  · intro rhs h
    cases rhs with
    | O => exact absurd rfl h
    | S r =>
      show r.intoUsize < 1 + r.intoUsize
      omega
  · exact Peano.add_intoUsize

theorem peano_add_spec_witness :
    ((Peano.fromUsize 1).pred).intoUsize < (Peano.fromUsize 1).intoUsize ∧
    ((Peano.fromUsize 2).add (Peano.fromUsize 3)).intoUsize
      = (Peano.fromUsize 2).intoUsize + (Peano.fromUsize 3).intoUsize :=
  ⟨peano_add_spec.1 (Peano.fromUsize 1) (by decide),
   peano_add_spec.2 (Peano.fromUsize 2) (Peano.fromUsize 3)⟩
